import Mathlib

/-!
Verification development for the asterisk-services repository: a pair of Go
programs that forward Asterisk telephony events to a webhook.  The first
program (`src/unnamed/part_000`) speaks the line-oriented AMI protocol; the
second (`src/event-handler/asterisk-webhook-forwarder.go`) speaks the
JSON-over-WebSocket ARI protocol.  The definitions below are a shallow
embedding of the pure decision logic of those programs; I/O effects (TCP
reads, HTTP posts, logging) are modelled by explicit inputs and outputs.
-/

/-- Characters treated as whitespace by Go's `strings.TrimSpace`
(`unicode.IsSpace`) within the Latin-1 range: tab, newline, vertical tab,
form feed, carriage return, space, NEL (U+0085) and NBSP (U+00A0).
Astral whitespace code points are outside the protocol's ASCII alphabet and
are not modelled. -/
def goIsSpace (c : Char) : Bool :=
  c = ' ' || c = '\t' || c = '\n' || c = '\x0b' || c = '\x0c' || c = '\r' ||
  c.toNat = 0x85 || c.toNat = 0xA0

/-- List-level core of `strings.TrimSpace`: drop leading and trailing
whitespace characters. -/
def goTrimSpaceL (l : List Char) : List Char :=
  ((l.dropWhile goIsSpace).reverse.dropWhile goIsSpace).reverse

/-- Models Go `strings.TrimSpace`. -/
def goTrimSpace (s : String) : String :=
  (goTrimSpaceL s.toList).asString

/-- List-level contiguous-substring test: true when `needle` occurs as a
contiguous run inside the second list. -/
def infixOfL (needle : List Char) : List Char → Bool
  | [] => needle.isEmpty
  | c :: rest => needle.isPrefixOf (c :: rest) || infixOfL needle rest

/-- Models Go `strings.Contains`: `goContains s sub` is true when `sub`
occurs as a contiguous substring of `s`. -/
def goContains (s sub : String) : Bool :=
  infixOfL sub.toList s.toList

/-- List-level core of Go `strings.Split(s, "\r\n")`: split on every
(non-overlapping, left-to-right) occurrence of CRLF, keeping empty pieces. -/
def splitCRLF : List Char → List (List Char)
  | [] => [[]]
  | '\r' :: '\n' :: rest => [] :: splitCRLF rest
  | c :: rest =>
    match splitCRLF rest with
    | [] => [[c]]
    | l :: ls => (c :: l) :: ls

/-- Models Go `strings.Split(s, "\r\n")`. -/
def goSplitCRLF (s : String) : List String :=
  (splitCRLF s.toList).map List.asString

/-- List-level core of Go `strings.SplitN(line, ": ", 2)`: split at the first
occurrence of `": "`; `none` when the separator does not occur. -/
def splitColonSpace : List Char → Option (List Char × List Char)
  | [] => none
  | c :: rest =>
    if [':', ' '].isPrefixOf (c :: rest) then some ([], rest.drop 1)
    else
      match splitColonSpace rest with
      | some (pre, post) => some (c :: pre, post)
      | none => none

/-- Models Go `strings.SplitN(line, ": ", 2)` restricted to the two-part
case: `some (key, value)` when the separator occurs, `none` otherwise. -/
def splitFirst (s : String) : Option (String × String) :=
  (splitColonSpace s.toList).map (fun p => (p.1.asString, p.2.asString))

/-- Association-list model of a Go `map[string]string` insertion
`m[k] = v`: any earlier binding of `k` is removed and the new binding
appended. -/
def updMap : List (String × String) → String → String → List (String × String)
  | [], k, v => [(k, v)]
  | (k₁, v₁) :: rest, k, v =>
    if k₁ = k then updMap rest k v else (k₁, v₁) :: updMap rest k v

/-- Lookup in the association-list map model. -/
def lookupM : List (String × String) → String → Option String
  | [], _ => none
  | (k₁, v₁) :: rest, key => if key = k₁ then some v₁ else lookupM rest key

/-- Loop body of `parseAMIEvent` over the list of lines, threading the
`eventType` accumulator and the `eventData` map exactly as the Go `for`
loop does: trim the line, skip it when empty, split on the first `": "`,
skip when the separator is absent, otherwise record the pair (setting
`eventType` when the key is `"Event"`). -/
def parseAMILines : List String → String → List (String × String) →
    String × List (String × String)
  | [], ty, m => (ty, m)
  | l :: ls, ty, m =>
    let line := goTrimSpace l
    if line = "" then parseAMILines ls ty m
    else
      match splitFirst line with
      | some (k, v) => parseAMILines ls (if k = "Event" then v else ty) (updMap m k v)
      | none => parseAMILines ls ty m

/-- Models Go `parseAMIEvent` (src/unnamed/part_000, lines 172-196): split
the frame on CRLF and fold the loop body over the lines starting from an
empty event type and an empty map. -/
def parseAMIEvent (eventText : String) : String × List (String × String) :=
  parseAMILines (goSplitCRLF eventText) "" []

/-- The key/value pair a single frame line contributes, if any: `none` for a
line that trims to empty or lacks the `": "` separator. -/
def kvOfLine (l : String) : Option (String × String) :=
  let t := goTrimSpace l
  if t = "" then none else splitFirst t

/-- All `Key: Value` pairs of a frame, in line order. -/
def frameKVs (t : String) : List (String × String) :=
  (goSplitCRLF t).filterMap kvOfLine

/-- The value of the last pair with the given key, if any (last occurrence
wins). -/
def lastValue (k : String) : List (String × String) → Option String
  | [] => none
  | (k₁, v₁) :: rest =>
    match lastValue k rest with
    | some v => some v
    | none => if k₁ = k then some v₁ else none

/-- One fold step of the parser on an extracted key/value pair. -/
def kvStep (acc : String × List (String × String)) (kv : String × String) :
    String × List (String × String) :=
  (if kv.1 = "Event" then kv.2 else acc.1, updMap acc.2 kv.1 kv.2)

/-- First-defined option, used to state lookup-after-fold lemmas. -/
def combineO (a b : Option String) : Option String :=
  match a with
  | some v => some v
  | none => b

/-- The fixed allow-set of `shouldProcessEvent`
(src/unnamed/part_000, lines 268-278). -/
def callEvents : List String :=
  ["Newchannel", "Hangup", "DialBegin", "DialEnd", "Bridge", "Unbridge",
   "NewCallerid", "NewAccountCode", "NewExten", "NewState", "Dial",
   "AgentCalled", "AgentConnect", "QueueMemberAdded", "QueueMemberRemoved",
   "Hold", "Unhold", "MusicOnHoldStart", "MusicOnHoldStop", "Transfer",
   "AttendedTransfer", "BlindTransfer", "DTMF", "VoicemailUserEntry",
   "CEL", "CDR", "LocalBridge", "LocalOptimizationBegin", "LocalOptimizationEnd",
   "OriginateResponse", "ChannelTalkingStart", "ChannelTalkingStop",
   "BridgeCreate", "BridgeDestroy", "BridgeEnter", "BridgeLeave",
   "VarSet", "UserEvent", "Registry", "PeerStatus", "ContactStatus"]

/-- Models Go `shouldProcessEvent` (src/unnamed/part_000, lines 266-287):
linear scan over `callEvents`, true on the first equality hit. -/
def shouldProcessEvent (eventType : String) : Bool :=
  callEvents.any (fun e => decide (eventType = e))

/-- Models Go `getEnv` (identical helper in both programs): the value of the
environment variable when non-empty, otherwise the supplied default.  The
environment is modelled as a total function where `""` means "unset", which
matches Go's `os.Getenv` returning `""` for unset variables. -/
def getEnv (env : String → String) (key defaultValue : String) : String :=
  if env key ≠ "" then env key else defaultValue

/-- Models the Go `AMIConfig` struct of the AMI program. -/
structure AMIConfig where
  asteriskHost : String
  asteriskPort : String
  username : String
  password : String
  webhookURL : String
deriving DecidableEq

/-- Models the Go `Config` struct of the ARI program. -/
structure Config where
  asteriskHost : String
  asteriskPort : String
  asteriskUser : String
  asteriskPass : String
  appName : String
  webhookURL : String
deriving DecidableEq

/-- Models Go `loadAMIConfig` (src/unnamed/part_000, lines 33-55).  The
`env` argument is the effective environment after `loadConfigFile` has
merged `config.env` into it (the file only fills in unset variables).
`none` models the `log.Fatal` exit when `WEBHOOK_URL` resolves to empty. -/
def loadAMIConfig (env : String → String) : Option AMIConfig :=
  let config : AMIConfig :=
    { asteriskHost := getEnv env "ASTERISK_HOST" "localhost"
      asteriskPort := getEnv env "AMI_PORT" "5038"
      username := getEnv env "AMI_USER" "admin"
      password := getEnv env "AMI_PASS" "admin"
      webhookURL := getEnv env "WEBHOOK_URL" "" }
  if config.webhookURL = "" then none else some config

/-- Models Go `loadConfig` (asterisk-webhook-forwarder.go, lines 41-56).
`none` models the `log.Fatal` exit when `WEBHOOK_URL` resolves to empty. -/
def loadConfig (env : String → String) : Option Config :=
  let config : Config :=
    { asteriskHost := getEnv env "ASTERISK_HOST" "localhost"
      asteriskPort := getEnv env "ASTERISK_PORT" "8088"
      asteriskUser := getEnv env "ASTERISK_USER" "admin"
      asteriskPass := getEnv env "ASTERISK_PASS" "admin"
      appName := getEnv env "ARI_APP_NAME" "webhook-forwarder"
      webhookURL := getEnv env "WEBHOOK_URL" "http://localhost:3000/webhook" }
  if config.webhookURL = "" then none else some config

/-- Models the login-response loop of Go `connectToAMI`
(src/unnamed/part_000, lines 122-139), applied to the sequence of response
lines available on the connection after the login request is written.  An
exhausted list models `reader.ReadString` returning an error.  `Except.ok`
models `connectToAMI` returning the live connection. -/
def connectToAMI : List String → Except String Unit
  | [] => Except.error "failed to read login response"
  | l :: ls =>
    let line := goTrimSpace l
    if goContains line "Message: Authentication accepted" then Except.ok ()
    else if goContains line "Message: Authentication failed" then
      Except.error "AMI authentication failed"
    else if line = "" then Except.ok ()
    else connectToAMI ls

/-- Outcome of the external effects inside one `sendToWebhook` call:
JSON serialization failure, request-construction failure, transport-level
failure of the POST, or an HTTP response with the given status code. -/
inductive HttpOutcome where
  | marshalFail : HttpOutcome
  | reqFail : HttpOutcome
  | transportFail : HttpOutcome
  | response (status : Nat) : HttpOutcome
deriving DecidableEq

/-- The error values `sendToWebhook` can return, mirroring its `fmt.Errorf`
cases. -/
inductive WebhookError where
  | marshalError : WebhookError
  | requestError : WebhookError
  | transportError : WebhookError
  | badStatus (status : Nat) : WebhookError
deriving DecidableEq

/-- Models Go `sendToWebhook` (identical logic in both programs:
src/unnamed/part_000 lines 144-170 and asterisk-webhook-forwarder.go lines
90-119).  The first component counts HTTP POSTs actually performed by the
call (`client.Do` executions); the second is the returned error or success.
A status outside [200,300) is an error carrying the status code. -/
def sendToWebhook : HttpOutcome → Nat × Except WebhookError Unit
  | HttpOutcome.marshalFail => (0, Except.error WebhookError.marshalError)
  | HttpOutcome.reqFail => (0, Except.error WebhookError.requestError)
  | HttpOutcome.transportFail => (1, Except.error WebhookError.transportError)
  | HttpOutcome.response s =>
    (1, if s < 200 ∨ 300 ≤ s then Except.error (WebhookError.badStatus s)
        else Except.ok ())

/-- Models the Go `WebhookPayload` struct of the AMI program (the
`Timestamp` field, `time.Now().UTC()` at dispatch, is not modelled). -/
structure WebhookPayloadAMI where
  source : String
  eventType : String
  data : List (String × String)
deriving DecidableEq

/-- Result of one `reader.ReadString` in the AMI event loop: a line, or a
read error. -/
inductive ReadResult where
  | ok (line : String) : ReadResult
  | err : ReadResult
deriving DecidableEq

/-- True exactly on a read error. -/
def ReadResult.isErr : ReadResult → Bool
  | ReadResult.ok _ => false
  | ReadResult.err => true

/-- State threaded through the AMI event loop `handleAMIEvents`: the
`currentEvent` accumulator and the `eventCount` counter. -/
structure AMIState where
  buffer : String
  eventCount : Nat
deriving DecidableEq

/-- Body of `handleAMIEvents` (src/unnamed/part_000, lines 219-262) for one
successfully read line: returns the next state, the payloads handed to
`sendToWebhook` (zero or one), and the event types passed to
`shouldProcessEvent` (zero or one), in order.  On a blank (trimmed-empty)
line the accumulated frame is inspected: it reaches the parser and the
classifier only when it is non-empty and contains the substring `"Event:"`,
and it is dispatched only when the classifier accepts its event type; the
accumulator is reset in every blank-line case.  A non-blank line is
appended to the accumulator as trimmed text plus CRLF. -/
def stepLine (st : AMIState) (raw : String) :
    AMIState × List WebhookPayloadAMI × List String :=
  let line := goTrimSpace raw
  if line = "" then
    let eventText := st.buffer
    if eventText ≠ "" ∧ goContains eventText "Event:" = true then
      let parsed := parseAMIEvent eventText
      let eventType := parsed.1
      if shouldProcessEvent eventType then
        ({ buffer := "", eventCount := st.eventCount + 1 },
         [{ source := "asterisk-ami", eventType := eventType, data := parsed.2 }],
         [eventType])
      else ({ buffer := "", eventCount := st.eventCount }, [], [eventType])
    else ({ buffer := "", eventCount := st.eventCount }, [], [])
  else ({ buffer := st.buffer ++ line ++ "\r\n", eventCount := st.eventCount }, [], [])

/-- One iteration of `handleAMIEvents`: a read error returns `none` (the
loop exits); otherwise the line is processed by `stepLine`. -/
def stepAMI (st : AMIState) (r : ReadResult) :
    Option AMIState × List WebhookPayloadAMI × List String :=
  match r with
  | ReadResult.err => (none, [], [])
  | ReadResult.ok raw =>
    let s := stepLine st raw
    (some s.1, s.2.1, s.2.2)

/-- Models a run of the `handleAMIEvents` loop over a list of read results.
`oracle` supplies the success/failure outcome of each webhook delivery in
turn; the Go loop only logs that outcome, so it steers nothing.  Returns
the final state, the payloads handed to `sendToWebhook` in order, and
whether the loop exited on a read error (`true`) or merely ran out of
supplied input (`false`). -/
def runAMI : AMIState → List ReadResult → List Bool →
    AMIState × List WebhookPayloadAMI × Bool
  | st, [], _ => (st, [], false)
  | st, r :: rs, oracle =>
    match stepAMI st r with
    | (none, _, _) => (st, [], true)
    | (some st', ds, _) =>
      let res := runAMI st' rs (oracle.drop ds.length)
      (res.1, ds ++ res.2.1, res.2.2)

/-- Model of the JSON values produced by Go `json.Unmarshal` into
`map[string]interface{}` / `interface{}` (numeric payload semantics are
irrelevant to every claim, so numbers carry an `Int`). -/
inductive JValue where
  | null : JValue
  | bool (b : Bool) : JValue
  | num (n : Int) : JValue
  | str (s : String) : JValue
  | arr (items : List JValue) : JValue
  | obj (fields : List (String × JValue)) : JValue

/-- Lookup of a key in a decoded JSON object; the last occurrence wins,
matching `encoding/json`'s handling of duplicate keys when filling a map. -/
def jLookup : List (String × JValue) → String → Option JValue
  | [], _ => none
  | (k, v) :: rest, key =>
    match jLookup rest key with
    | some r => some r
    | none => if k = key then some v else none

/-- Models the Go `WebhookPayload` struct of the ARI program (the
`Timestamp` field is not modelled). -/
structure WebhookPayloadARI where
  source : String
  eventType : String
  data : JValue

/-- Body of `handleEvents` (asterisk-webhook-forwarder.go, lines 129-149)
for one WebSocket message: `none` models a message whose bytes are not a
JSON object (`json.Unmarshal` error — malformed JSON or a non-object top
level), which the loop skips.  A decoded object is dispatched exactly when
its `type` field exists and is a string; the payload carries source
`"asterisk-ari"`, that string as event type, and the entire decoded object
as data. -/
def handleMessage : Option JValue → Option WebhookPayloadARI
  | none => none
  | some v =>
    match v with
    | JValue.obj fields =>
      match jLookup fields "type" with
      | some (JValue.str s) =>
        some { source := "asterisk-ari", eventType := s, data := JValue.obj fields }
      | _ => none
    | _ => none

/-- Result of one `conn.ReadMessage` in the ARI event loop: a message
(already classified as decodable-to-object or not), or a read error. -/
inductive ARIRead where
  | msg (m : Option JValue) : ARIRead
  | err : ARIRead

/-- True exactly on a read error. -/
def ARIRead.isErr : ARIRead → Bool
  | ARIRead.msg _ => false
  | ARIRead.err => true

/-- Models a run of the `handleEvents` loop over a list of read results.
`oracle` supplies each delivery outcome in turn; the Go loop only logs it.
Returns the payloads handed to `sendToWebhook` in order and whether the
loop exited on a read error. -/
def runARI : List ARIRead → List Bool → List WebhookPayloadARI × Bool
  | [], _ => ([], false)
  | ARIRead.err :: _, _ => ([], true)
  | ARIRead.msg m :: rest, oracle =>
    match handleMessage m with
    | none => runARI rest oracle
    | some p =>
      let res := runARI rest (oracle.drop 1)
      (p :: res.1, res.2)

/-- Whether a character list starts with a whitespace character. -/
def headWS : List Char → Bool
  | [] => false
  | c :: _ => goIsSpace c

lemma headWS_eq_of_head?_eq {a b : List Char} (h : a.head? = b.head?) :
    headWS a = headWS b := by
  cases a with
  | nil => cases b with
    | nil => rfl
    | cons c l => simp at h
  | cons c l => cases b with
    | nil => simp at h
    | cons d m =>
      simp only [List.head?_cons, Option.some.injEq] at h
      simp [headWS, h]

lemma headWS_dropWhile (l : List Char) :
    headWS (l.dropWhile goIsSpace) = false := by
  induction l with
  | nil => rfl
  | cons c rest ih =>
    by_cases h : goIsSpace c = true
    · simpa [List.dropWhile_cons, h] using ih
    · simp only [List.dropWhile_cons, h]
      simpa [headWS] using h

lemma getLast?_dropWhile (p : Char → Bool) (l : List Char) :
    l.dropWhile p = [] ∨ (l.dropWhile p).getLast? = l.getLast? := by
  induction l with
  | nil => exact Or.inl rfl
  | cons c rest ih =>
    by_cases h : p c = true
    · rw [List.dropWhile_cons, if_pos h]
      cases hdw : rest.dropWhile p with
      | nil => exact Or.inl rfl
      | cons x xs =>
        right
        have hlast : (rest.dropWhile p).getLast? = rest.getLast? := by
          rcases ih with h0 | h1
          · rw [h0] at hdw; exact absurd hdw (by simp)
          · exact h1
        rw [← hdw, hlast]
        cases rest with
        | nil => simp at hdw
        | cons r rs => rw [List.getLast?_cons_cons]
    · right; simp [List.dropWhile_cons, h]

lemma goTrimSpaceL_head (l : List Char) : headWS (goTrimSpaceL l) = false := by
  unfold goTrimSpaceL
  set l₁ := l.dropWhile goIsSpace with hl₁
  rcases getLast?_dropWhile goIsSpace l₁.reverse with h0 | hlast
  · rw [h0]; rfl
  · have hh : (l₁.reverse.dropWhile goIsSpace).reverse.head? = l₁.head? := by
      rw [List.head?_reverse, hlast, List.getLast?_reverse]
    rw [headWS_eq_of_head?_eq hh, hl₁]
    exact headWS_dropWhile l

lemma goTrimSpaceL_last (l : List Char) :
    headWS (goTrimSpaceL l).reverse = false := by
  unfold goTrimSpaceL
  rw [List.reverse_reverse]
  exact headWS_dropWhile _

lemma goTrimSpaceL_of_all_space {l : List Char}
    (h : l.all goIsSpace = true) : goTrimSpaceL l = [] := by
  unfold goTrimSpaceL
  have h1 : l.dropWhile goIsSpace = [] :=
    List.dropWhile_eq_nil_iff.mpr (by simpa [List.all_eq_true] using h)
  rw [h1]
  rfl

lemma goTrimSpace_of_all_space {s : String}
    (h : s.toList.all goIsSpace = true) : goTrimSpace s = "" := by
  unfold goTrimSpace
  rw [goTrimSpaceL_of_all_space h]
  rfl

lemma lookupM_updMap (m : List (String × String)) (k v key : String) :
    lookupM (updMap m k v) key = if key = k then some v else lookupM m key := by
  induction m with
  | nil => rfl
  | cons hd rest ih =>
    obtain ⟨k₁, v₁⟩ := hd
    by_cases h1 : k₁ = k
    · subst h1
      rw [updMap, if_pos rfl, ih]
      by_cases h2 : key = k₁
      · simp [h2]
      · simp [lookupM, h2]
    · rw [updMap, if_neg h1, lookupM]
      by_cases h2 : key = k₁
      · subst h2
        rw [if_pos rfl, if_neg h1, lookupM, if_pos rfl]
      · rw [if_neg h2, ih, lookupM, if_neg h2]

lemma parseAMILines_eq_foldl (ls : List String) (ty : String)
    (m : List (String × String)) :
    parseAMILines ls ty m = (ls.filterMap kvOfLine).foldl kvStep (ty, m) := by
  induction ls generalizing ty m with
  | nil => rfl
  | cons l rest ih =>
    rw [show parseAMILines (l :: rest) ty m =
      (if goTrimSpace l = "" then parseAMILines rest ty m
       else
         match splitFirst (goTrimSpace l) with
         | some (k, v) =>
           parseAMILines rest (if k = "Event" then v else ty) (updMap m k v)
         | none => parseAMILines rest ty m) from rfl]
    by_cases h : goTrimSpace l = ""
    · rw [if_pos h]
      have hkv : kvOfLine l = none := by simp [kvOfLine, h]
      simp only [List.filterMap_cons, hkv]
      exact ih ty m
    · rw [if_neg h]
      cases hsp : splitFirst (goTrimSpace l) with
      | none =>
        have hkv : kvOfLine l = none := by simp [kvOfLine, if_neg h, hsp]
        simp only [List.filterMap_cons, hkv]
        exact ih ty m
      | some kv =>
        obtain ⟨k, v⟩ := kv
        have hkv : kvOfLine l = some (k, v) := by simp [kvOfLine, if_neg h, hsp]
        simp only [List.filterMap_cons, hkv, List.foldl_cons]
        rw [ih]
        rfl

lemma foldl_kvStep_fst (kvs : List (String × String)) (ty : String)
    (m : List (String × String)) :
    (kvs.foldl kvStep (ty, m)).1 = (lastValue "Event" kvs).getD ty := by
  induction kvs generalizing ty m with
  | nil => rfl
  | cons kv rest ih =>
    obtain ⟨k, v⟩ := kv
    rw [List.foldl_cons]
    show (rest.foldl kvStep (kvStep (ty, m) (k, v))).1 = _
    rw [show kvStep (ty, m) (k, v) =
      (if k = "Event" then v else ty, updMap m k v) from rfl, ih]
    cases hlast : lastValue "Event" rest with
    | some w => simp [lastValue, hlast]
    | none =>
      by_cases hk : k = "Event" <;> simp [lastValue, hlast, hk]

lemma foldl_kvStep_lookup (kvs : List (String × String)) (ty : String)
    (m : List (String × String)) (key : String) :
    lookupM (kvs.foldl kvStep (ty, m)).2 key =
      combineO (lastValue key kvs) (lookupM m key) := by
  induction kvs generalizing ty m with
  | nil => rfl
  | cons kv rest ih =>
    obtain ⟨k, v⟩ := kv
    rw [List.foldl_cons]
    show lookupM (rest.foldl kvStep
      (if k = "Event" then v else ty, updMap m k v)).2 key = _
    rw [ih, lookupM_updMap]
    cases hlast : lastValue key rest with
    | some w => simp [lastValue, combineO, hlast]
    | none =>
      by_cases hk : k = key
      · subst hk
        simp [lastValue, combineO, hlast]
      · simp [lastValue, combineO, hlast, hk, Ne.symm hk]

lemma parseAMIEvent_fst (t : String) :
    (parseAMIEvent t).1 = (lastValue "Event" (frameKVs t)).getD "" := by
  rw [parseAMIEvent, parseAMILines_eq_foldl]
  exact foldl_kvStep_fst _ _ _

lemma parseAMIEvent_lookup (t : String) (key : String) :
    lookupM (parseAMIEvent t).2 key = lastValue key (frameKVs t) := by
  rw [parseAMIEvent, parseAMILines_eq_foldl, foldl_kvStep_lookup]
  unfold frameKVs
  cases h : lastValue key (List.filterMap kvOfLine (goSplitCRLF t)) <;>
    simp [combineO, h, lookupM]

lemma shouldProcessEvent_iff (s : String) :
    shouldProcessEvent s = true ↔ s ∈ callEvents := by
  rw [shouldProcessEvent, List.any_eq_true]
  constructor
  · rintro ⟨x, hx, hsx⟩
    rw [decide_eq_true_iff] at hsx
    rwa [hsx]
  · intro h
    exact ⟨s, h, by simp⟩

lemma shouldProcessEvent_ne_empty {ty : String}
    (h : shouldProcessEvent ty = true) : ty ≠ "" := by
  intro he
  rw [he] at h
  exact absurd h (by decide)

/-- C1: for every line-protocol frame, `parseAMIEvent` yields an event type
equal to the value of the frame's last `Event` key (empty string if no such
key occurs), and an attributes map whose lookup at any key is exactly the
value of the frame's last `Key: Value` line with that key — so every
`Key: Value` line (the `Event` line included) is in the map, lines without
the `": "` separator contribute nothing, and duplicate keys resolve to the
last occurrence. -/
theorem claim_C1_parseAMIEvent (t : String) :
    (parseAMIEvent t).1 = (lastValue "Event" (frameKVs t)).getD "" ∧
    ∀ k, lookupM (parseAMIEvent t).2 k = lastValue k (frameKVs t) :=
  ⟨parseAMIEvent_fst t, fun k => parseAMIEvent_lookup t k⟩

/-- C3: `shouldProcessEvent` returns true exactly for the members of the
fixed allow-set `callEvents` enumerated in the code, and false for every
other string, in particular `"FooBarUnknownEvent"` and the empty string. -/
theorem claim_C3_shouldProcessEvent :
    (∀ s : String, shouldProcessEvent s = true ↔ s ∈ callEvents) ∧
    shouldProcessEvent "Newchannel" = true ∧
    shouldProcessEvent "Hangup" = true ∧
    shouldProcessEvent "DialBegin" = true ∧
    shouldProcessEvent "PeerStatus" = true ∧
    shouldProcessEvent "ContactStatus" = true ∧
    shouldProcessEvent "FooBarUnknownEvent" = false ∧
    shouldProcessEvent "" = false :=
  ⟨shouldProcessEvent_iff, by decide, by decide, by decide, by decide,
   by decide, by decide, by decide⟩

/-- C4: `sendToWebhook` never performs more than one HTTP POST (and performs
exactly one whenever a request goes out on the wire — a transport failure
or any response); it succeeds exactly when the response status lies in
[200,300); a response status outside that range yields an error carrying
that status, and transport-level and serialization failures yield errors
carrying the cause. -/
theorem claim_C4_sendToWebhook :
    (∀ o : HttpOutcome, (sendToWebhook o).1 ≤ 1 ∧
      ((sendToWebhook o).2 = Except.ok () ↔
        ∃ s, o = HttpOutcome.response s ∧ 200 ≤ s ∧ s < 300)) ∧
    (∀ s : Nat, (sendToWebhook (HttpOutcome.response s)).1 = 1 ∧
      ((sendToWebhook (HttpOutcome.response s)).2 = Except.ok () ∨
       (sendToWebhook (HttpOutcome.response s)).2 =
         Except.error (WebhookError.badStatus s))) ∧
    sendToWebhook HttpOutcome.transportFail =
      (1, Except.error WebhookError.transportError) ∧
    sendToWebhook HttpOutcome.marshalFail =
      (0, Except.error WebhookError.marshalError) := by
  refine ⟨?_, ?_, rfl, rfl⟩
  · intro o
    cases o with
    | marshalFail =>
      refine ⟨by decide, ?_⟩
      constructor
      · intro h; exact Except.noConfusion h
      · rintro ⟨s, h, -⟩; cases h
    | reqFail =>
      refine ⟨by decide, ?_⟩
      constructor
      · intro h; exact Except.noConfusion h
      · rintro ⟨s, h, -⟩; cases h
    | transportFail =>
      refine ⟨by decide, ?_⟩
      constructor
      · intro h; exact Except.noConfusion h
      · rintro ⟨s, h, -⟩; cases h
    | response s =>
      refine ⟨le_refl 1, ?_⟩
      simp only [sendToWebhook]
      by_cases h : s < 200 ∨ 300 ≤ s
      · rw [if_pos h]
        constructor
        · intro hc; exact Except.noConfusion hc
        · rintro ⟨s', hs', h1, h2⟩
          cases hs'
          omega
      · rw [if_neg h]
        constructor
        · intro _; exact ⟨s, rfl, by omega, by omega⟩
        · intro _; rfl
  · intro s
    refine ⟨rfl, ?_⟩
    simp only [sendToWebhook]
    by_cases h : s < 200 ∨ 300 ≤ s
    · rw [if_pos h]; right; rfl
    · rw [if_neg h]; left; rfl

/-- C2: on the JSON/WebSocket path, one inbound message produces exactly one
webhook dispatch attempt if and only if it decodes to a JSON object whose
`type` field is a string; the dispatched payload has source
`"asterisk-ari"`, event type equal to that string, and data equal to the
entire decoded object (no allow-set filter); any other message (malformed
JSON, non-object, missing or non-string `type`) is skipped without a
dispatch and the loop continues (it never exits on such a message). -/
theorem claim_C2_handleEvents (m : Option JValue) :
    (runARI [ARIRead.msg m] []).1 = (handleMessage m).toList ∧
    (runARI [ARIRead.msg m] []).2 = false ∧
    (∀ p, handleMessage m = some p ↔
      ∃ fields s, m = some (JValue.obj fields) ∧
        jLookup fields "type" = some (JValue.str s) ∧
        p = { source := "asterisk-ari", eventType := s,
              data := JValue.obj fields }) := by
  refine ⟨?_, ?_, ?_⟩
  · cases hm : handleMessage m <;> simp [runARI, hm]
  · cases hm : handleMessage m <;> simp [runARI, hm]
  · intro p
    cases m with
    | none =>
      constructor
      · intro h; exact Option.noConfusion h
      · rintro ⟨fields, s, h, -, -⟩; exact Option.noConfusion h
    | some v =>
      cases v with
      | obj fields =>
        cases hl : jLookup fields "type" with
        | none =>
          constructor
          · intro h
            simp only [handleMessage, hl] at h
            exact Option.noConfusion h
          · rintro ⟨fields', s, hf, hlook, -⟩
            simp only [Option.some.injEq, JValue.obj.injEq] at hf
            subst hf
            rw [hl] at hlook
            exact Option.noConfusion hlook
        | some jv =>
          cases jv with
          | str s₀ =>
            constructor
            · intro h
              simp only [handleMessage, hl] at h
              injection h with h'
              exact ⟨fields, s₀, rfl, hl, h'.symm⟩
            · rintro ⟨fields', s, hf, hlook, hp⟩
              simp only [Option.some.injEq, JValue.obj.injEq] at hf
              subst hf
              rw [hl] at hlook
              injection hlook with hlook'
              injection hlook' with hs
              rw [hp, ← hs]
              simp [handleMessage, hl]
          | null =>
            constructor
            · intro h
              simp only [handleMessage, hl] at h
              exact Option.noConfusion h
            · rintro ⟨fields', s, hf, hlook, -⟩
              simp only [Option.some.injEq, JValue.obj.injEq] at hf
              subst hf
              rw [hl] at hlook
              injection hlook with hlook'
              exact JValue.noConfusion hlook'
          | bool b =>
            constructor
            · intro h
              simp only [handleMessage, hl] at h
              exact Option.noConfusion h
            · rintro ⟨fields', s, hf, hlook, -⟩
              simp only [Option.some.injEq, JValue.obj.injEq] at hf
              subst hf
              rw [hl] at hlook
              injection hlook with hlook'
              exact JValue.noConfusion hlook'
          | num n =>
            constructor
            · intro h
              simp only [handleMessage, hl] at h
              exact Option.noConfusion h
            · rintro ⟨fields', s, hf, hlook, -⟩
              simp only [Option.some.injEq, JValue.obj.injEq] at hf
              subst hf
              rw [hl] at hlook
              injection hlook with hlook'
              exact JValue.noConfusion hlook'
          | arr items =>
            constructor
            · intro h
              simp only [handleMessage, hl] at h
              exact Option.noConfusion h
            · rintro ⟨fields', s, hf, hlook, -⟩
              simp only [Option.some.injEq, JValue.obj.injEq] at hf
              subst hf
              rw [hl] at hlook
              injection hlook with hlook'
              exact JValue.noConfusion hlook'
          | obj inner =>
            constructor
            · intro h
              simp only [handleMessage, hl] at h
              exact Option.noConfusion h
            · rintro ⟨fields', s, hf, hlook, -⟩
              simp only [Option.some.injEq, JValue.obj.injEq] at hf
              subst hf
              rw [hl] at hlook
              injection hlook with hlook'
              exact JValue.noConfusion hlook'
      | null =>
        constructor
        · intro h; exact Option.noConfusion h
        · rintro ⟨fields, s, hf, -, -⟩
          injection hf with hf'
          exact JValue.noConfusion hf'
      | bool b =>
        constructor
        · intro h; exact Option.noConfusion h
        · rintro ⟨fields, s, hf, -, -⟩
          injection hf with hf'
          exact JValue.noConfusion hf'
      | num n =>
        constructor
        · intro h; exact Option.noConfusion h
        · rintro ⟨fields, s, hf, -, -⟩
          injection hf with hf'
          exact JValue.noConfusion hf'
      | str s₀ =>
        constructor
        · intro h; exact Option.noConfusion h
        · rintro ⟨fields, s, hf, -, -⟩
          injection hf with hf'
          exact JValue.noConfusion hf'
      | arr items =>
        constructor
        · intro h; exact Option.noConfusion h
        · rintro ⟨fields, s, hf, -, -⟩
          injection hf with hf'
          exact JValue.noConfusion hf'

/-- C5: in both forwarding loops the delivery outcomes steer nothing — a run
with any sequence of webhook successes/failures produces exactly the same
states, dispatch attempts and exit behaviour as a run with any other — and
each loop exits exactly when a read error occurs, never because of a
delivery error. -/
theorem claim_C5_deliveryFailureRecoverable :
    (∀ (st : AMIState) (rs : List ReadResult) (o₁ o₂ : List Bool),
      runAMI st rs o₁ = runAMI st rs o₂) ∧
    (∀ (st : AMIState) (rs : List ReadResult) (o : List Bool),
      (runAMI st rs o).2.2 = rs.any ReadResult.isErr) ∧
    (∀ (ms : List ARIRead) (o₁ o₂ : List Bool),
      runARI ms o₁ = runARI ms o₂) ∧
    (∀ (ms : List ARIRead) (o : List Bool),
      (runARI ms o).2 = ms.any ARIRead.isErr) := by
  refine ⟨?_, ?_, ?_, ?_⟩
  · intro st rs
    induction rs generalizing st with
    | nil => intro o₁ o₂; rfl
    | cons r rs ih =>
      intro o₁ o₂
      cases r with
      | err => rfl
      | ok raw =>
        simp only [runAMI, stepAMI]
        rw [ih (stepLine st raw).1 (o₁.drop (stepLine st raw).2.1.length)
          (o₂.drop (stepLine st raw).2.1.length)]
  · intro st rs
    induction rs generalizing st with
    | nil => intro o; rfl
    | cons r rs ih =>
      intro o
      cases r with
      | err => rfl
      | ok raw =>
        simp only [runAMI, stepAMI, List.any_cons, ReadResult.isErr,
          Bool.false_or]
        exact ih (stepLine st raw).1 _
  · intro ms
    induction ms with
    | nil => intro o₁ o₂; rfl
    | cons r ms ih =>
      intro o₁ o₂
      cases r with
      | err => rfl
      | msg m =>
        cases hm : handleMessage m with
        | none => simp only [runARI, hm]; exact ih o₁ o₂
        | some p => simp only [runARI, hm]; rw [ih (o₁.drop 1) (o₂.drop 1)]
  · intro ms
    induction ms with
    | nil => intro o; rfl
    | cons r ms ih =>
      intro o
      cases r with
      | err => rfl
      | msg m =>
        cases hm : handleMessage m with
        | none =>
          simp only [runARI, hm, List.any_cons, ARIRead.isErr, Bool.false_or]
          exact ih o
        | some p =>
          simp only [runARI, hm, List.any_cons, ARIRead.isErr, Bool.false_or]
          exact ih _

/-- C8: in the login handshake of `connectToAMI`, a response line containing
the `"Message: Authentication accepted"` marker yields a successful session
start; a line containing the `"Message: Authentication failed"` marker (and
not the accepted marker) yields a failed session start with an error; a
blank line is treated as implicit success (it can contain neither marker);
any other line is skipped and reading continues; and exhausting the
responses (a read error) fails the session start. -/
theorem claim_C8_connectToAMI (l : String) (ls : List String) :
    (goContains (goTrimSpace l) "Message: Authentication accepted" = true →
      connectToAMI (l :: ls) = Except.ok ()) ∧
    (goContains (goTrimSpace l) "Message: Authentication accepted" = false →
     goContains (goTrimSpace l) "Message: Authentication failed" = true →
      connectToAMI (l :: ls) = Except.error "AMI authentication failed") ∧
    (goTrimSpace l = "" → connectToAMI (l :: ls) = Except.ok ()) ∧
    (goContains (goTrimSpace l) "Message: Authentication accepted" = false →
     goContains (goTrimSpace l) "Message: Authentication failed" = false →
     goTrimSpace l ≠ "" → connectToAMI (l :: ls) = connectToAMI ls) ∧
    connectToAMI ([] : List String) =
      Except.error "failed to read login response" := by
  refine ⟨?_, ?_, ?_, ?_, rfl⟩
  · intro h
    simp [connectToAMI, h]
  · intro h1 h2
    simp [connectToAMI, h1, h2]
  · intro h
    have h1 : goContains "" "Message: Authentication accepted" = false := by
      decide
    have h2 : goContains "" "Message: Authentication failed" = false := by
      decide
    simp [connectToAMI, h, h1, h2]
  · intro h1 h2 h3
    simp [connectToAMI, h1, h2, h3]

/-- Witness for C8: a lone blank response line is accepted as implicit
authentication success. -/
theorem claim_C8_connectToAMI_witness :
    connectToAMI [""] = Except.ok () :=
  (claim_C8_connectToAMI "" []).2.2.1 rfl

/-- C6 counterexample: the frame `"SubEvent: foo\r\n"` has no `Event` key
(second conjunct), yet on the terminating blank line the loop body calls
the classifier `shouldProcessEvent` with the empty event type (the `[""]`
classifier-call trace in the first conjunct), because the gate is the
substring test `strings.Contains(eventText, "Event:")`, which the key
`SubEvent` satisfies. -/
theorem claim_C6_counterexample :
    stepLine { buffer := "SubEvent: foo\r\n", eventCount := 0 } "" =
      ({ buffer := "", eventCount := 0 }, [], [""]) ∧
    lastValue "Event" (frameKVs "SubEvent: foo\r\n") = none :=
  ⟨by decide, by decide⟩

/-- C6 amended: a frame consisting only of blank lines (empty accumulator)
or whose text does not contain the substring `"Event:"` produces no
callback into the classifier or the dispatcher and is discarded silently
(the loop continues with a reset accumulator); a frame lacking an `Event`
key is never dispatched, but it may still be passed to the classifier
(with empty event type) when another key contains `"Event:"` as a
substring. -/
theorem claim_C6_amended (st : AMIState) :
    (st.buffer = "" ∨ goContains st.buffer "Event:" = false →
      stepLine st "" = ({ buffer := "", eventCount := st.eventCount }, [], [])) ∧
    (lastValue "Event" (frameKVs st.buffer) = none →
      (stepLine st "").2.1 = []) := by
  have ht : goTrimSpace "" = "" := rfl
  constructor
  · intro h
    rcases h with h | h
    · simp [stepLine, ht, h]
    · simp [stepLine, ht, h]
  · intro h
    by_cases hc : st.buffer ≠ "" ∧ goContains st.buffer "Event:" = true
    · have hty : (parseAMIEvent st.buffer).1 = "" := by
        rw [parseAMIEvent_fst, h]
        rfl
      have hsp : shouldProcessEvent (parseAMIEvent st.buffer).1 = false := by
        rw [hty]; decide
      simp [stepLine, ht, hc, hsp]
    · simp [stepLine, ht, hc]

/-- Witness for C6 (amended): a frame with an ordinary key and no
`"Event:"` substring is discarded without classifier or dispatcher
callbacks. -/
theorem claim_C6_amended_witness :
    stepLine { buffer := "Foo: 1\r\n", eventCount := 0 } "" =
      ({ buffer := "", eventCount := 0 }, [], []) :=
  (claim_C6_amended { buffer := "Foo: 1\r\n", eventCount := 0 }).1
    (Or.inr (by decide))

/-- C7 counterexample: the JSON message `{"type":""}` decodes to an object
whose `type` field is the empty string, so the ARI loop performs a webhook
dispatch whose `EventType` is the empty string — refuting the claim that
every payload handed to `sendToWebhook` has a non-empty event type. -/
theorem claim_C7_counterexample :
    (runARI [ARIRead.msg (some (JValue.obj [("type", JValue.str "")]))]
      []).1.map (fun p => p.eventType) = [""] := rfl

/-- C7 amended: on the line-protocol path every payload handed to
`sendToWebhook` has an event type accepted by the classifier, hence
non-empty; on the JSON path the payload's event type equals the decoded
object's `type` string, which may be empty. -/
theorem claim_C7_amended :
    (∀ (st : AMIState) (r : ReadResult) (p : WebhookPayloadAMI),
      p ∈ (stepAMI st r).2.1 →
        shouldProcessEvent p.eventType = true ∧ p.eventType ≠ "") ∧
    (∀ (m : Option JValue) (p : WebhookPayloadARI),
      handleMessage m = some p →
        ∃ fields, m = some (JValue.obj fields) ∧
          jLookup fields "type" = some (JValue.str p.eventType)) := by
  constructor
  · intro st r p hp
    cases r with
    | err => exact absurd hp (by simp [stepAMI])
    | ok raw =>
      simp only [stepAMI] at hp
      simp only [stepLine] at hp
      split_ifs at hp with h1 h2 h3
      · simp only [List.mem_singleton] at hp
        subst hp
        exact ⟨h3, shouldProcessEvent_ne_empty h3⟩
      · exact absurd hp (List.not_mem_nil p)
      · exact absurd hp (List.not_mem_nil p)
      · exact absurd hp (List.not_mem_nil p)
  · intro m p h
    cases m with
    | none => exact Option.noConfusion h
    | some v =>
      cases v with
      | obj fields =>
        cases hl : jLookup fields "type" with
        | none =>
          simp only [handleMessage, hl] at h
          exact Option.noConfusion h
        | some jv =>
          cases jv with
          | str s₀ =>
            simp only [handleMessage, hl] at h
            injection h with h'
            refine ⟨fields, rfl, ?_⟩
            rw [← h']
            exact hl
          | null =>
            simp only [handleMessage, hl] at h
            exact Option.noConfusion h
          | bool b =>
            simp only [handleMessage, hl] at h
            exact Option.noConfusion h
          | num n =>
            simp only [handleMessage, hl] at h
            exact Option.noConfusion h
          | arr items =>
            simp only [handleMessage, hl] at h
            exact Option.noConfusion h
          | obj inner =>
            simp only [handleMessage, hl] at h
            exact Option.noConfusion h
      | null => exact Option.noConfusion h
      | bool b => exact Option.noConfusion h
      | num n => exact Option.noConfusion h
      | str s₀ => exact Option.noConfusion h
      | arr items => exact Option.noConfusion h

/-- Witness for C7 (amended): the `Hangup` frame is dispatched with the
allow-listed, non-empty event type `"Hangup"`. -/
theorem claim_C7_amended_witness :
    shouldProcessEvent "Hangup" = true ∧ ("Hangup" : String) ≠ "" :=
  claim_C7_amended.1 { buffer := "Event: Hangup\r\n", eventCount := 0 }
    (ReadResult.ok "")
    { source := "asterisk-ami", eventType := "Hangup",
      data := [("Event", "Hangup")] } (by decide)

/-- C9 counterexample: with an empty environment (no webhook URL supplied
at all), the ARI program's `loadConfig` does not refuse to start — it
proceeds with the built-in default webhook URL
`http://localhost:3000/webhook`. -/
theorem claim_C9_counterexample :
    loadConfig (fun _ => "") =
      some { asteriskHost := "localhost", asteriskPort := "8088",
             asteriskUser := "admin", asteriskPass := "admin",
             appName := "webhook-forwarder",
             webhookURL := "http://localhost:3000/webhook" } := by decide

/-- C9 amended: the AMI variant (`loadAMIConfig`) refuses to start whenever
no webhook URL is supplied; the ARI variant (`loadConfig`) instead falls
back to the built-in default `http://localhost:3000/webhook` and starts. -/
theorem claim_C9_amended (env : String → String) :
    (env "WEBHOOK_URL" = "" → loadAMIConfig env = none) ∧
    (env "WEBHOOK_URL" = "" →
      (loadConfig env).map (fun c => c.webhookURL) =
        some "http://localhost:3000/webhook") := by
  constructor
  · intro h
    simp [loadAMIConfig, getEnv, h]
  · intro h
    have hd : ("http://localhost:3000/webhook" : String) ≠ "" := by decide
    simp [loadConfig, getEnv, h, hd]

/-- Witness for C9 (amended): on the empty environment the AMI variant
exits fatally while the ARI variant starts with the default URL. -/
theorem claim_C9_amended_witness :
    loadAMIConfig (fun _ => "") = none ∧
    (loadConfig (fun _ => "")).map (fun c => c.webhookURL) =
      some "http://localhost:3000/webhook" :=
  ⟨(claim_C9_amended (fun _ => "")).1 rfl,
   (claim_C9_amended (fun _ => "")).2 rfl⟩

/-- C10: in the AMI loop every read line is whitespace-trimmed before
inspection — a line of only whitespace behaves exactly like the empty
frame-terminating line; a line whose trimmed text is non-empty is appended
to the accumulator as that trimmed text followed by CRLF (and causes no
dispatch or classifier call); and the trimmed text never starts or ends
with a whitespace character. -/
theorem claim_C10_trimming (st : AMIState) (l : String) :
    (l.toList.all goIsSpace = true → stepLine st l = stepLine st "") ∧
    (goTrimSpace l ≠ "" → stepLine st l =
      ({ buffer := st.buffer ++ goTrimSpace l ++ "\r\n",
         eventCount := st.eventCount }, [], [])) ∧
    headWS (goTrimSpace l).toList = false ∧
    headWS (goTrimSpace l).toList.reverse = false := by
  have ht0 : goTrimSpace "" = "" := rfl
  refine ⟨?_, ?_, ?_, ?_⟩
  · intro h
    have ht := goTrimSpace_of_all_space h
    simp only [stepLine, ht, ht0]
  · intro h
    simp only [stepLine]
    rw [if_neg h]
  · exact goTrimSpaceL_head l.toList
  · exact goTrimSpaceL_last l.toList

/-- Witness for C10: a line of spaces and a tab is processed exactly like
the empty line. -/
theorem claim_C10_trimming_witness :
    stepLine { buffer := "", eventCount := 0 } " \t " =
      stepLine { buffer := "", eventCount := 0 } "" :=
  (claim_C10_trimming { buffer := "", eventCount := 0 } " \t ").1 (by decide)
